import Mathlib

/- Verification of the session-lifecycle and security-gating subsystem of the
   agent-browse CLI (src/cli.ts together with its security module).

   The TypeScript code is embedded shallowly:
   - JavaScript strings become Lean `String`s and are manipulated through
     their `List Char` data, so every definition is executable.
   - `new URL(url)` is modelled by `parseURL` below, an executable rendering
     of WHATWG URL parsing for absolute URLs with plain ASCII hosts
     (percent-encoding, IDNA, IPv6 host literals and the input tab/newline
     stripping pass are outside the model; a parse the model rejects is the
     thrown `TypeError` branch of the source's try/catch).
   - Filesystem and process effects are modelled by explicit state records
     and an environment record supplying the outcome of each failable
     external call; a TypeScript `throw` is `Except.error`, a `try/catch`
     is a `match` on that `Except`. -/

namespace AgentBrowse

/-- Code points treated as whitespace by the JavaScript class \s and by
String.prototype.trim (space, tab, line terminators, vertical tab, form
feed, NBSP, the Unicode space separators, and the BOM). -/
def jsWhitespace (c : Char) : Bool :=
  c.toNat == 32 || c.toNat == 9 || c.toNat == 10 || c.toNat == 13 ||
  c.toNat == 11 || c.toNat == 12 || c.toNat == 160 ||
  c.toNat == 0x1680 || (0x2000 ≤ c.toNat && c.toNat ≤ 0x200a) ||
  c.toNat == 0x2028 || c.toNat == 0x2029 || c.toNat == 0x202f ||
  c.toNat == 0x205f || c.toNat == 0x3000 || c.toNat == 0xfeff

/-- Decimal digit test on code points, the model of the digits accepted by
JavaScript parseInt with radix 10. -/
def charIsDigit (c : Char) : Bool :=
  48 ≤ c.toNat && c.toNat ≤ 57

/-- JavaScript String.prototype.endsWith. -/
def strEndsWith (s t : String) : Bool :=
  t.data.isSuffixOf s.data

/-- Substring search on character lists: true when sub occurs contiguously. -/
def inclAux (sub : List Char) : List Char → Bool
  | [] => sub.isEmpty
  | c :: rest => sub.isPrefixOf (c :: rest) || inclAux sub rest

/-- JavaScript String.prototype.includes. -/
def strIncludes (s sub : String) : Bool :=
  inclAux sub.data s.data

/-- JavaScript String.prototype.toLowerCase restricted to ASCII (all the
strings the blocklist compares are ASCII). -/
def toLowerStr (s : String) : String :=
  (s.data.map Char.toLower).asString

/-- Split a character list at every occurrence of sep (the pieces do not
contain sep; n separators yield n+1 pieces). -/
def splitOnChar (sep : Char) : List Char → List (List Char)
  | [] => [[]]
  | c :: rest =>
    match splitOnChar sep rest with
    | s :: ss => if c == sep then [] :: s :: ss else (c :: s) :: ss
    | [] => [[c]]

/- ===================== URL parsing model ===================== -/

/-- Result of `new URL(url)`: the three components the security module
reads (`parsed.hostname`, `parsed.pathname`, and the scheme). -/
structure URLParts where
  scheme : String
  hostname : String
  pathname : String
deriving DecidableEq

/-- Scheme characters allowed after the first letter of a URL scheme. -/
def schemeCharOk (c : Char) : Bool :=
  c.isAlpha || charIsDigit c || c == '+' || c == '-' || c == '.'

/-- Split a leading "scheme:" from a character list; none when the input has
no valid scheme (the WHATWG parser then throws for base-less input). -/
def splitScheme : List Char → Option (List Char × List Char)
  | [] => none
  | c :: rest =>
    if c.isAlpha then splitSchemeAux [c] rest else none
where
  splitSchemeAux (acc : List Char) : List Char → Option (List Char × List Char)
    | [] => none
    | c :: rest =>
      if c == ':' then some (acc.reverse, rest)
      else if schemeCharOk c then splitSchemeAux (c :: acc) rest
      else none

/-- The WHATWG special schemes this model covers (file is excluded from
the model). -/
def specialSchemes : List String := ["http", "https", "ws", "wss", "ftp"]

/-- Forbidden host code points of the WHATWG URL standard, with percent
also rejected since the model does no percent-decoding. -/
def forbiddenHostChar (c : Char) : Bool :=
  c.toNat == 0 || c.toNat == 9 || c.toNat == 10 || c.toNat == 13 ||
  c == ' ' || c == '#' || c == '/' || c == ':' || c == '<' || c == '>' ||
  c == '?' || c == '@' || c == '[' || c == '\\' || c == ']' || c == '^' ||
  c == '|' || c == '%'

/-- Part of an authority after its last at sign (WHATWG strips user
information up to the last at sign). -/
def afterLastAt (cs : List Char) : List Char :=
  (cs.reverse.takeWhile (fun c => !(c == '@'))).reverse

/-- Parse an authority into a lowercased hostname; none models the thrown
TypeError (empty host where one is required, a forbidden host character,
or a non-numeric port). -/
def parseHostAuthority (auth : List Char) (requireHost : Bool) : Option (List Char) :=
  let hostport := afterLastAt auth
  let host := hostport.takeWhile (fun c => !(c == ':'))
  let port := (hostport.drop host.length).drop 1
  if requireHost && host.isEmpty then none
  else if host.any forbiddenHostChar then none
  else if port.all charIsDigit then some (host.map Char.toLower)
  else none

/-- One step of RFC 3986 dot-segment removal: out is the stack of kept
segments (most recent first); the Bool records whether the last processed
segment was "." or ".." (which leaves a trailing slash). -/
def dotSegLoop : List (List Char) → List (List Char) → Bool → List (List Char) × Bool
  | [], out, tr => (out, tr)
  | seg :: rest, out, _ =>
    if seg == ['.'] then dotSegLoop rest out true
    else if seg == ['.', '.'] then dotSegLoop rest out.tail true
    else dotSegLoop rest (seg :: out) false

/-- Join segments back into an absolute path string. -/
def joinSegs (out : List (List Char)) (tr : Bool) : List Char :=
  '/' :: (List.intercalate ['/'] out.reverse) ++
    (if tr && !out.isEmpty then ['/'] else [])

/-- Normalize an absolute path (leading slash) by removing "." and ".."
segments, as the WHATWG path state does. -/
def removeDotSegments (path : List Char) : List Char :=
  match path with
  | '/' :: rest =>
    let (out, tr) := dotSegLoop (splitOnChar '/' rest) [] false
    joinSegs out tr
  | p => p

/-- Model of `new URL(url)` for absolute URLs: scheme parsing, slash
skipping for special schemes, authority splitting, host validation and
lowercasing, and path extraction with dot-segment normalization.  Returns
none exactly where the constructor throws (within the documented model
scope). -/
def parseURL (url : String) : Option URLParts :=
  match splitScheme url.data with
  | none => none
  | some (schemeCs, rest) =>
    let scheme := (schemeCs.map Char.toLower).asString
    if specialSchemes.contains scheme then
      let rest1 := rest.dropWhile (fun c => c == '/' || c == '\\')
      let auth := rest1.takeWhile
        (fun c => !(c == '/' || c == '\\' || c == '?' || c == '#'))
      let after := rest1.drop auth.length
      match parseHostAuthority auth true with
      | none => none
      | some host =>
        let rawPath := after.takeWhile (fun c => !(c == '?' || c == '#'))
        let path :=
          if rawPath.isEmpty then ['/']
          else removeDotSegments (rawPath.map (fun c => if c == '\\' then '/' else c))
        some ⟨scheme, host.asString, path.asString⟩
    else
      match rest with
      | '/' :: '/' :: rest2 =>
        let auth := rest2.takeWhile (fun c => !(c == '/' || c == '?' || c == '#'))
        let after := rest2.drop auth.length
        match parseHostAuthority auth false with
        | none => none
        | some host =>
          let rawPath := after.takeWhile (fun c => !(c == '?' || c == '#'))
          some ⟨scheme, host.asString, (removeDotSegments rawPath).asString⟩
      | _ =>
        some ⟨scheme, "", (rest.takeWhile (fun c => !(c == '?' || c == '#'))).asString⟩

/- ===================== Security module ===================== -/

/-- BLOCKED_DOMAINS of the security module, in source order. -/
def BLOCKED_DOMAINS : List String := [
  "chase.com",
  "bankofamerica.com",
  "wellsfargo.com",
  "citi.com",
  "citibank.com",
  "capitalone.com",
  "usbank.com",
  "pnc.com",
  "schwab.com",
  "fidelity.com",
  "vanguard.com",
  "tdameritrade.com",
  "etrade.com",
  "robinhood.com",
  "coinbase.com",
  "binance.com",
  "kraken.com",
  "paypal.com",
  "venmo.com",
  "zelle.com",
  "wise.com",
  "mercury.com",
  "brex.com",
  "stripe.com/dashboard",
  "mail.google.com",
  "outlook.live.com",
  "outlook.office.com",
  "mail.yahoo.com",
  "proton.me",
  "protonmail.com",
  "mychart.com",
  "mychartonline.com",
  "portal.anthem.com",
  "uhc.com",
  "cigna.com",
  "aetna.com",
  "kaiser.permanente.org",
  "irs.gov",
  "ssa.gov",
  "id.me",
  "login.gov"]

/-- Bare-entry match of the source: `hostname === domain ||
hostname.endsWith('.' + domain)`. -/
def bareMatches (host d : String) : Bool :=
  decide (host = d) || strEndsWith host ("." ++ d)

/-- One iteration of the blocklist loop: path-scoped entries match by
substring on host+path, bare entries by equality or dot-suffix. -/
def entryMatches (host fullPath d : String) : Bool :=
  if d.data.contains '/' then strIncludes fullPath d
  else bareMatches host d

/-- getBlockedDomain generalized over the (runtime-mutable) blocklist
array: parse the URL, lowercase the hostname, scan the entries in order
and return the first match; parse failure is caught and yields null. -/
def getBlockedDomainWith (domains : List String) (url : String) : Option String :=
  match parseURL url with
  | none => none
  | some p =>
    let hostname := toLowerStr p.hostname
    let fullPath := hostname ++ p.pathname
    domains.find? (fun d => entryMatches hostname fullPath d)

/-- getBlockedDomain of the security module (the fixed BLOCKED_DOMAINS). -/
def getBlockedDomain (url : String) : Option String :=
  getBlockedDomainWith BLOCKED_DOMAINS url

/- ===================== URL regexp scanner ===================== -/

/-- Characters admitted by the regexp character class of the action
scanner: everything except \s, double quote, single quote, and angle
brackets. -/
def urlBodyChar (c : Char) : Bool :=
  !(jsWhitespace c || c == '"' || c == Char.ofNat 39 || c == '<' || c == '>')

/-- Case-insensitive single-character comparison against a lowercase
letter (the i flag of the regexp). -/
def caseMatch (c lower : Char) : Bool :=
  c.toLower == lower

/-- Match the literal part "https?://" of the regexp at the head of the
input; on success return the consumed characters (original case) and the
remainder. -/
def matchScheme : List Char → Option (List Char × List Char)
  | c1 :: c2 :: c3 :: c4 :: rest =>
    if caseMatch c1 'h' && caseMatch c2 't' && caseMatch c3 't' && caseMatch c4 'p' then
      match rest with
      | c5 :: rest2 =>
        if caseMatch c5 's' then
          match rest2 with
          | ':' :: '/' :: '/' :: rest3 =>
            some ([c1, c2, c3, c4, c5, ':', '/', '/'], rest3)
          | _ => none
        else
          match rest with
          | ':' :: '/' :: '/' :: rest3 =>
            some ([c1, c2, c3, c4, ':', '/', '/'], rest3)
          | _ => none
      | [] => none
    else none
  | _ => none

/-- Try the whole regexp /https?:\/\/[^\s"'<>]+/i at the head of the
input: the scheme literal followed by a maximal nonempty run of body
characters. -/
def tryMatchAt (cs : List Char) : Option (List Char × List Char) :=
  match matchScheme cs with
  | none => none
  | some (schemePart, rest) =>
    let body := rest.takeWhile urlBodyChar
    if body.isEmpty then none
    else some (schemePart ++ body, rest.drop body.length)

/-- Global regexp search: collect every non-overlapping leftmost match,
resuming after each match, exactly as String.prototype.match with the g
flag.  Fuel bounds the recursion; extractUrls supplies enough. -/
def extractUrlsAux : Nat → List Char → List (List Char)
  | 0, _ => []
  | fuel + 1, cs =>
    match tryMatchAt cs with
    | some (url, rest) => url :: extractUrlsAux fuel rest
    | none =>
      match cs with
      | [] => []
      | _ :: rest => extractUrlsAux fuel rest

/-- action.match(urlPattern) of the source, as the list of matched URL
substrings (the empty list models the null result). -/
def extractUrls (action : String) : List String :=
  (extractUrlsAux action.data.length action.data).map List.asString

/-- The loop over matched URLs: return the first blocked domain found. -/
def firstBlockedUrl : List String → Option String
  | [] => none
  | u :: rest =>
    match getBlockedDomain u with
    | some d => some d
    | none => firstBlockedUrl rest

/-- actionReferencesBlockedDomain of the security module. -/
def actionReferencesBlockedDomain (action : String) : Option String :=
  firstBlockedUrl (extractUrls action)

/-- getRandomCdpPort: Math.floor(Math.random() * 55000) + 10000, with the
random draw modelled by an arbitrary natural number reduced mod 55000. -/
def getRandomCdpPort (rand : Nat) : Nat :=
  rand % 55000 + 10000

/- ===================== parseInt and the port file ===================== -/

/-- String.prototype.trim on character lists. -/
def jsTrimList (cs : List Char) : List Char :=
  ((cs.dropWhile jsWhitespace).reverse.dropWhile jsWhitespace).reverse

/-- Value of a list of decimal digit characters, most significant first. -/
def digitsVal (ds : List Char) : Nat :=
  ds.foldl (fun acc c => 10 * acc + (c.toNat - 48)) 0

/-- Maximal leading run of decimal digits; none when there is no digit
(the NaN result of parseInt). -/
def digitsRun (cs : List Char) : Option Nat :=
  let ds := cs.takeWhile charIsDigit
  if ds.isEmpty then none else some (digitsVal ds)

/-- Optional sign then the maximal leading digit run, on the already
trimmed character list. -/
def parseIntChars : List Char → Option Int
  | [] => none
  | c :: rest =>
    if c.toNat = 45 then (digitsRun rest).map (fun n => -(n : Int))
    else if c.toNat = 43 then (digitsRun rest).map (fun n => (n : Int))
    else (digitsRun (c :: rest)).map (fun n => (n : Int))

/-- parseInt(s, 10): trim, optional sign, then the maximal leading digit
run; none models NaN. -/
def parseIntJS (s : String) : Option Int :=
  parseIntChars (jsTrimList s.data)

/-- Single decimal digit character (only applied to values below ten). -/
def decDigit : Nat → Char
  | 0 => '0' | 1 => '1' | 2 => '2' | 3 => '3' | 4 => '4'
  | 5 => '5' | 6 => '6' | 7 => '7' | 8 => '8' | _ => '9'

/-- Decimal digit characters of a natural number, most significant first;
the fuel always suffices since a number needs at most its own magnitude in
digits. -/
def natDecimalAux : Nat → Nat → List Char
  | 0, _ => []
  | fuel + 1, n =>
    if n < 10 then [decDigit n]
    else natDecimalAux fuel (n / 10) ++ [decDigit (n % 10)]

/-- Decimal representation of a natural number, the model of the
JavaScript String(number) conversion written into the port file. -/
def natToDecimal (n : Nat) : String :=
  ⟨natDecimalAux (n + 1) n⟩

/-- On-disk state shared across CLI invocations: the port file contents
when present, and existence of the PID record and the persistent profile
directory. -/
structure FSState where
  portFile : Option String
  pidFileExists : Bool
  profileDirExists : Bool
deriving DecidableEq

/-- Generate a fresh random port and persist it immediately. -/
def freshPort (fs : FSState) (rand : Nat) : Int × FSState :=
  let port := getRandomCdpPort rand
  ((port : Int), { fs with portFile := some (natToDecimal port) })

/-- Continuation of getCdpPort on the parsed port file contents: a
positive parsed value is reused, anything else falls through to fresh
generation. -/
def portFromContent (fs : FSState) (rand : Nat) : Option Int → Int × FSState
  | some saved => if saved > 0 then (saved, fs) else freshPort fs rand
  | none => freshPort fs rand

/-- getCdpPort: reuse the persisted port when the file exists and parses
to a positive integer, otherwise generate and persist a fresh one. -/
def getCdpPort (fs : FSState) (rand : Nat) : Int × FSState :=
  match fs.portFile with
  | some content => portFromContent fs rand (parseIntJS content)
  | none => freshPort fs rand

/- ===================== Command results and gates ===================== -/

/-- The uniform structured result every command reports. -/
structure CmdResult where
  success : Bool
  message : Option String := none
  error : Option String := none
  screenshot : Option String := none
deriving DecidableEq

/-- Observable browser-side effects of a command; a blocked command must
produce none of them. -/
inductive BrowserEffect
  | initBrowserCall
  | gotoCall (url : String)
  | engineAct (action : String)
  | engineExtract
  | engineObserve
  | screenshotCall
deriving DecidableEq

/-- navigate(url): the blocklist gate, then the try block whose first
await is initBrowser.  The try block (including its internal catch) is
abstracted by rest; its effect trace is prefixed with the initBrowser
call it always begins with. -/
def navigateCmd (url : String) (rest : CmdResult × List BrowserEffect) :
    CmdResult × List BrowserEffect :=
  match getBlockedDomain url with
  | some d =>
    ({ success := false,
       error := some ("BLOCKED: Navigation to \"" ++ d ++
         "\" is restricted by security policy.") }, [])
  | none => (rest.1, BrowserEffect.initBrowserCall :: rest.2)

/-- act(action): the free-text blocklist gate, then the abstracted try
block beginning with initBrowser. -/
def actCmd (action : String) (rest : CmdResult × List BrowserEffect) :
    CmdResult × List BrowserEffect :=
  match actionReferencesBlockedDomain action with
  | some d =>
    ({ success := false,
       error := some ("BLOCKED: Action references restricted domain \"" ++
         d ++ "\".") }, [])
  | none => (rest.1, BrowserEffect.initBrowserCall :: rest.2)

/-- Exit path of main: a command that resolves to a result prints it and
exits 0; only a rejected (thrown) command exits 1. -/
def mainExitCode (outcome : Except String CmdResult) : Nat :=
  match outcome with
  | .ok _ => 0
  | .error _ => 1

/- ===================== extract schema building ===================== -/

/-- The three recognized field types of the extract schema. -/
inductive ZFieldType
  | zstring
  | znumber
  | zboolean
deriving DecidableEq

/-- The switch over a declared field type. -/
def parseZType (t : String) : Option ZFieldType :=
  if t = "string" then some ZFieldType.zstring
  else if t = "number" then some ZFieldType.znumber
  else if t = "boolean" then some ZFieldType.zboolean
  else none

/-- The schema-building loop of extract: recognized fields are collected
in order, any unrecognized type clears the hasValidTypes flag. -/
def extractSchemaLoop (entries : List (String × String)) :
    List (String × ZFieldType) × Bool :=
  entries.foldl
    (fun acc kt =>
      match parseZType kt.2 with
      | some z => (acc.1 ++ [(kt.1, z)], acc.2)
      | none => (acc.1, false))
    ([], true)

/-- The schema object handed to the automation engine: built only when
hasValidTypes survived the loop and at least one field was collected. -/
def buildExtractSchema (entries : List (String × String)) :
    Option (List (String × ZFieldType)) :=
  let (zodSchema, hasValidTypes) := extractSchemaLoop entries
  if hasValidTypes && decide (0 < zodSchema.length) then some zodSchema
  else none

/- ===================== Shutdown path ===================== -/

/-- In-process module-level browser state of cli.ts. -/
structure SessionState where
  stagehandInstance : Bool
  currentPage : Bool
  chromeProcess : Bool
  weStartedChrome : Bool
deriving DecidableEq

/-- Outcomes of every failable external call closeBrowser performs; an
Except.error models that call throwing. -/
structure ShutdownEnv where
  stagehandClose : Except String Unit
  killSigterm : Except String Unit
  exitCodeAfterWait : Option Int
  killSigkill : Except String Unit
  probe1 : Except String Bool
  readVersionJson : Except String String
  tempStagehandInit : Except String Unit
  tempStagehandClose : Except String Unit
  probe2 : Except String Unit
  pidRecordParse : Except String Int
  psCommandOutput : Except String String
  pidKill : Except String Unit

/-- String conversion helper for the ps output check. -/
def trimStr (s : String) : String :=
  (jsTrimList s.data).asString

/-- Innermost try of the shutdown path: verify the recorded PID is a
Chrome process before force-killing it. -/
def pidKillAttempt (env : ShutdownEnv) : Except String Unit := do
  let out ← env.psCommandOutput
  if strIncludes (toLowerStr (trimStr out)) "chrome" then env.pidKill
  else pure ()

/-- Inner try of the shutdown path: re-probe the CDP port; if Chrome
still answers, read the PID record and attempt the verified force kill
(whose own failures are swallowed by the innermost catch). -/
def innerProbePhase (env : ShutdownEnv) (fs : FSState) : Except String Unit := do
  let _ ← env.probe2
  if fs.pidFileExists then do
    let _ ← env.pidRecordParse
    match pidKillAttempt env with
    | _ => pure ()
  else pure ()

/-- The graceful CDP shutdown attempt: probe the port, and when it
answers open and close a throwaway automation-engine connection, then run
the inner probe (whose catch means Chrome closed).  Any error escaping a
step here propagates to the outer catch of closeBrowser. -/
def probePhase (env : ShutdownEnv) (fs : FSState) : Except String Unit := do
  let ok ← env.probe1
  if ok then do
    let _ ← env.readVersionJson
    let _ ← env.tempStagehandInit
    let _ ← env.tempStagehandClose
    match innerProbePhase env fs with
    | _ => pure ()
  else pure ()

/-- First phase of closeBrowser: close the in-process engine handle under
try/catch and clear the module-level state. -/
def stagehandPhase (env : ShutdownEnv) (st : SessionState) :
    SessionState × List String :=
  if st.stagehandInstance then
    let logs := match env.stagehandClose with
      | Except.ok _ => []
      | Except.error e => ["Error closing Stagehand: " ++ e]
    ({ st with stagehandInstance := false, currentPage := false }, logs)
  else (st, [])

/-- Second phase of closeBrowser: SIGTERM then SIGKILL for a Chrome this
process spawned, under one try/catch. -/
def chromeKillPhase (env : ShutdownEnv) (st : SessionState) :
    SessionState × List String :=
  if st.chromeProcess && st.weStartedChrome then
    let attempt : Except String Unit := do
      let _ ← env.killSigterm
      if env.exitCodeAfterWait.isNone then env.killSigkill else pure ()
    let logs := match attempt with
      | Except.ok _ => []
      | Except.error e => ["Error killing Chrome: " ++ e]
    ({ st with chromeProcess := false, weStartedChrome := false }, logs)
  else (st, [])

/-- The finally of closeBrowser: delete the PID record if present.
unlinkSync on an existing path is modelled as succeeding; the inner
try/catch of the source guards OS-level failures outside this model. -/
def deletePidRecord (fs : FSState) : FSState :=
  if fs.pidFileExists then { fs with pidFileExists := false } else fs

/-- closeBrowser.  Typed in Except so that any failure not caught by one
of the modelled try/catch blocks would surface as an error value; the
theorem for C5 states that no environment produces one. -/
def closeBrowser (env : ShutdownEnv) (st : SessionState) (fs : FSState) :
    Except String (SessionState × FSState × List String) := do
  let (st1, logs1) := stagehandPhase env st
  let (st2, logs2) := chromeKillPhase env st1
  let logs3 : List String :=
    match probePhase env fs with
    | _ => []
  let fs1 := deletePidRecord fs
  return (st2, fs1, logs1 ++ logs2 ++ logs3)

/-- The close command of main: closeBrowser, then delete the port file if
present, then report success; the profile directory is intentionally
untouched. -/
def closeCommand (env : ShutdownEnv) (st : SessionState) (fs : FSState) :
    Except String (SessionState × FSState × List String × CmdResult) := do
  let (st1, fs1, logs) ← closeBrowser env st fs
  let fs2 := if fs1.portFile.isSome then { fs1 with portFile := none } else fs1
  return (st1, fs2, logs,
    { success := true, message := some "Browser closed (profile preserved)" })

/- ===================== Helper lemmas ===================== -/

lemma dotData (a : String) : ("." ++ a).data = '.' :: a.data := by
  rw [String.data_append]
  rfl

/-- Dot-suffix comparability of two blocklist entries. -/
def dotCompat (a b : String) : Bool :=
  ("." ++ a).data.isSuffixOf (("." ++ b).data) ||
  ("." ++ b).data.isSuffixOf (("." ++ a).data)

/-- Two bare entries matching the same host are dot-suffix comparable. -/
lemma bareMatches_cross {h a b : String}
    (ha : bareMatches h a = true) (hb : bareMatches h b = true) :
    dotCompat a b = true := by
  simp only [bareMatches, strEndsWith, Bool.or_eq_true, decide_eq_true_eq,
    List.isSuffixOf_iff_suffix] at ha hb
  simp only [dotCompat, Bool.or_eq_true, List.isSuffixOf_iff_suffix]
  have hsa : a.data <:+ ("." ++ a).data := by
    rw [dotData]; exact List.suffix_cons '.' a.data
  have hsb : b.data <:+ ("." ++ b).data := by
    rw [dotData]; exact List.suffix_cons '.' b.data
  rcases ha with rfl | ha
  · rcases hb with rfl | hb
    · exact Or.inl List.suffix_rfl
    · exact Or.inr (hb.trans hsa)
  · rcases hb with rfl | hb
    · exact Or.inl (ha.trans hsb)
    · exact List.suffix_or_suffix_of_suffix ha hb

/-- No bare entry of the concrete blocklist is dot-suffix comparable
with a different one, so a host matches at most one bare entry. -/
lemma blocked_domains_indep :
    ∀ a ∈ BLOCKED_DOMAINS, ∀ b ∈ BLOCKED_DOMAINS,
      a.data.contains '/' = false → b.data.contains '/' = false →
      a ≠ b → dotCompat a b = false := by decide

/-- find? returns the unique element satisfying the test. -/
lemma find_eq_some_of_unique {α : Type} (p : α → Bool) :
    ∀ (l : List α) (a : α), a ∈ l → p a = true →
      (∀ b ∈ l, p b = true → b = a) → l.find? p = some a
  | [], a, ha, _, _ => absurd ha (List.not_mem_nil a)
  | x :: xs, a, ha, hpa, huniq => by
    by_cases hx : p x = true
    · have hxa : x = a := huniq x (List.mem_cons_self x xs) hx
      rw [List.find?_cons_of_pos _ hx, hxa]
    · have hx' : ¬ p x := by simpa using hx
      rw [List.find?_cons_of_neg _ hx']
      rcases List.mem_cons.mp ha with rfl | hmem
      · exact absurd hpa hx
      · exact find_eq_some_of_unique p xs a hmem hpa
          (fun b hb hpb => huniq b (List.mem_cons_of_mem x hb) hpb)

/- ===================== Claims ===================== -/

/-- Claim C1: navigate and act evaluate their blocklist check before any
browser action: when the check matches, each command short-circuits with
the structured BLOCKED failure naming the matched domain, produces no
browser effect (initBrowser in particular is never reached), and the
command path exits 0 since the blocked result is a resolved value, not a
thrown error. -/
theorem navigate_act_gate_before_browser (url action d1 d2 : String)
    (rest1 rest2 : CmdResult × List BrowserEffect)
    (h1 : getBlockedDomain url = some d1)
    (h2 : actionReferencesBlockedDomain action = some d2) :
    navigateCmd url rest1 =
      ({ success := false,
         error := some ("BLOCKED: Navigation to \"" ++ d1 ++
           "\" is restricted by security policy.") }, []) ∧
    actCmd action rest2 =
      ({ success := false,
         error := some ("BLOCKED: Action references restricted domain \"" ++
           d2 ++ "\".") }, []) ∧
    mainExitCode (Except.ok (navigateCmd url rest1).1) = 0 ∧
    mainExitCode (Except.ok (actCmd action rest2).1) = 0 := by
  refine ⟨?_, ?_, rfl, rfl⟩
  · simp [navigateCmd, h1]
  · simp [actCmd, h2]

/-- Witness for C1 at the example of the specification: the error string
is exactly the documented one and no effect is produced. -/
theorem navigate_act_gate_witness :
    navigateCmd "https://chase.com/login" ({ success := true }, []) =
      ({ success := false,
         error := some "BLOCKED: Navigation to \"chase.com\" is restricted by security policy." },
       []) ∧
    actCmd "open https://chase.com/login" ({ success := true }, []) =
      ({ success := false,
         error := some "BLOCKED: Action references restricted domain \"chase.com\"." },
       []) := by
  have h := navigate_act_gate_before_browser "https://chase.com/login"
    "open https://chase.com/login" "chase.com" "chase.com"
    ({ success := true }, []) ({ success := true }, []) (by decide) (by decide)
  refine ⟨?_, ?_⟩
  · rw [h.1]; decide
  · rw [h.2.1]; decide

/-- Claim C5: closeBrowser never lets a failure escape its boundary: for
every combination of internal failures (engine close, process kills, CDP
probes, PID record parsing) and every starting state it returns normally. -/
theorem closeBrowser_never_throws (env : ShutdownEnv) (st : SessionState)
    (fs : FSState) : (closeBrowser env st fs).isOk = true := rfl

/-- Claim C6: the close command always removes the port file and the PID
record, never touches the persistent profile directory, and reports the
exact documented success result. -/
theorem closeCommand_removes_files (env : ShutdownEnv) (st : SessionState)
    (fs : FSState) :
    ∃ st1 logs,
      closeCommand env st fs =
        Except.ok (st1,
          { portFile := none, pidFileExists := false,
            profileDirExists := fs.profileDirExists },
          logs,
          { success := true, message := some "Browser closed (profile preserved)" }) := by
  rcases fs with ⟨pf, pid, prof⟩
  cases pf <;> cases pid <;> exact ⟨_, _, rfl⟩

/-- Claim C7: on any input the URL parser rejects, getBlockedDomain (for
any blocklist contents) takes the caught-exception path and returns null
instead of propagating the failure. -/
theorem getBlockedDomain_fail_open (url : String) (h : parseURL url = none) :
    getBlockedDomain url = none ∧
    ∀ domains, getBlockedDomainWith domains url = none := by
  refine ⟨?_, fun domains => ?_⟩ <;>
    simp [getBlockedDomain, getBlockedDomainWith, h]

/-- Witness for C7: a scheme-less relative string fails parsing and is
allowed. -/
theorem getBlockedDomain_fail_open_witness :
    parseURL "chase.com/login" = none ∧
    getBlockedDomain "chase.com/login" = none :=
  ⟨by decide, (getBlockedDomain_fail_open "chase.com/login" (by decide)).1⟩

/-- Does the URL parse with a lowercased host equal to or below the bare
entry d. -/
def hostMatchB (url d : String) : Bool :=
  match parseURL url with
  | none => false
  | some p => bareMatches (toLowerStr p.hostname) d

/-- Claim C2 as stated: a URL whose host equals or is a subdomain of a
bare entry yields exactly that entry, and every other URL yields none. -/
def blocklistBareClaim : Prop :=
  ∀ url : String,
    (∀ d ∈ BLOCKED_DOMAINS, d.data.contains '/' = false →
      hostMatchB url d = true → getBlockedDomain url = some d) ∧
    ((∀ d ∈ BLOCKED_DOMAINS, d.data.contains '/' = false →
      hostMatchB url d = false) → getBlockedDomain url = none)

/-- Counterexample to C2: the host of https://stripe.com/dashboard
matches no bare entry, yet the URL is blocked through the path-scoped
entry, so the second half of the claim fails. -/
theorem blocklistBareClaim_false : ¬ blocklistBareClaim := fun hcl =>
  absurd ((hcl "https://stripe.com/dashboard").2 (by decide)) (by decide)

/-- Claim C2 amended: on every URL that parses and whose lowercased
host+path does not contain a path-scoped entry, a host equal to or below
a bare entry yields exactly that entry, and any other host yields none. -/
theorem getBlockedDomain_bare_characterization (url : String) (p : URLParts)
    (hp : parseURL url = some p)
    (hnopath : ∀ d ∈ BLOCKED_DOMAINS, d.data.contains '/' = true →
      strIncludes (toLowerStr p.hostname ++ p.pathname) d = false) :
    (∀ d ∈ BLOCKED_DOMAINS, d.data.contains '/' = false →
      bareMatches (toLowerStr p.hostname) d = true →
      getBlockedDomain url = some d) ∧
    ((∀ d ∈ BLOCKED_DOMAINS, d.data.contains '/' = false →
      bareMatches (toLowerStr p.hostname) d = false) →
      getBlockedDomain url = none) := by
  have hunf : getBlockedDomain url =
      BLOCKED_DOMAINS.find? (fun d =>
        entryMatches (toLowerStr p.hostname)
          (toLowerStr p.hostname ++ p.pathname) d) := by
    simp [getBlockedDomain, getBlockedDomainWith, hp]
  constructor
  · intro d hd hdbare hdmatch
    rw [hunf]
    apply find_eq_some_of_unique _ _ _ hd
    · show entryMatches (toLowerStr p.hostname)
        (toLowerStr p.hostname ++ p.pathname) d = true
      rw [entryMatches, if_neg (by rw [hdbare]; simp)]
      exact hdmatch
    · intro b hb hpb
      simp only [entryMatches] at hpb
      by_cases hslash : b.data.contains '/' = true
      · exfalso
        rw [if_pos hslash, hnopath b hb hslash] at hpb
        cases hpb
      · have hbslash : b.data.contains '/' = false := by simpa using hslash
        rw [if_neg hslash] at hpb
        by_contra hne
        have hfalse := blocked_domains_indep b hb d hd hbslash hdbare hne
        have htrue := bareMatches_cross hpb hdmatch
        rw [hfalse] at htrue
        cases htrue
  · intro hall
    rw [hunf, List.find?_eq_none]
    intro d hd hpd
    simp only [entryMatches] at hpd
    by_cases hslash : d.data.contains '/' = true
    · rw [if_pos hslash, hnopath d hd hslash] at hpd
      cases hpd
    · have hdslash : d.data.contains '/' = false := by simpa using hslash
      rw [if_neg hslash, hall d hd hdslash] at hpd
      cases hpd

/-- Witness for amended C2 at the specification's example URL. -/
theorem getBlockedDomain_bare_witness :
    getBlockedDomain "https://chase.com/login" = some "chase.com" :=
  (getBlockedDomain_bare_characterization "https://chase.com/login"
      ⟨"https", "chase.com", "/login"⟩ (by decide) (by decide)).1
    "chase.com" (by decide) (by decide) (by decide)

/-- Claim C3 as stated, over the runtime-mutable blocklist array: a
blocklist holding only a parent domain does not block a proper subdomain
of that domain. -/
def bareSubdomainClaim : Prop :=
  ∀ (e url : String) (p : URLParts), parseURL url = some p →
    e.data.contains '/' = false →
    toLowerStr p.hostname ≠ e →
    strEndsWith (toLowerStr p.hostname) ("." ++ e) = true →
    getBlockedDomainWith [e] url = none

/-- Counterexample to C3: with the single bare entry google.com, the
subdomain host accounts.google.com is blocked, because the matcher also
accepts any host with dot-entry as a suffix. -/
theorem bareSubdomainClaim_false : ¬ bareSubdomainClaim := fun hcl =>
  absurd
    (hcl "google.com" "https://accounts.google.com/signin"
      ⟨"https", "accounts.google.com", "/signin"⟩ (by decide) (by decide)
      (by decide) (by decide))
    (by decide)

/-- Claim C3 amended: a bare entry blocks every subdomain of itself: with
a single-entry blocklist, any parsed URL whose lowercased host ends in
dot-entry is blocked and that entry is returned. -/
theorem bare_entry_blocks_subdomain (e url : String) (p : URLParts)
    (hp : parseURL url = some p)
    (hbare : e.data.contains '/' = false)
    (hsub : strEndsWith (toLowerStr p.hostname) ("." ++ e) = true) :
    getBlockedDomainWith [e] url = some e := by
  have hm : entryMatches (toLowerStr p.hostname)
      (toLowerStr p.hostname ++ p.pathname) e = true := by
    rw [entryMatches, if_neg (by rw [hbare]; simp), bareMatches, hsub,
      Bool.or_true]
  simp only [getBlockedDomainWith, hp]
  exact List.find?_cons_of_pos _ hm

/-- Witness for amended C3 at the specification's own example pair. -/
theorem bare_entry_blocks_subdomain_witness :
    getBlockedDomainWith ["google.com"] "https://accounts.google.com/signin" =
      some "google.com" :=
  bare_entry_blocks_subdomain "google.com" "https://accounts.google.com/signin"
    ⟨"https", "accounts.google.com", "/signin"⟩ (by decide) (by decide)
    (by decide)

/-- Schema builder described by claim C4: drop each unrecognized field,
keep the recognized ones, pass a schema only when at least one field was
kept. -/
def buildExtractSchemaClaim (entries : List (String × String)) :
    Option (List (String × ZFieldType)) :=
  let recognized := entries.filterMap
    (fun kt => (parseZType kt.2).map (fun z => (kt.1, z)))
  if recognized.isEmpty then none else some recognized

/-- Counterexample to C4 at the specification's own example: one
recognized and one unrecognized field make the source drop the whole
schema, not only the unrecognized field. -/
theorem buildExtractSchema_not_partial :
    buildExtractSchema [("price", "number"), ("color", "purple")] = none ∧
    buildExtractSchemaClaim [("price", "number"), ("color", "purple")] =
      some [("price", ZFieldType.znumber)] ∧
    buildExtractSchema [("price", "number"), ("color", "purple")] ≠
      buildExtractSchemaClaim [("price", "number"), ("color", "purple")] := by
  decide

/-- The schema loop collects the recognized fields in order and records
whether every field was recognized. -/
lemma extractSchemaLoop_go (entries : List (String × String))
    (acc : List (String × ZFieldType)) (b : Bool) :
    entries.foldl
      (fun acc kt =>
        match parseZType kt.2 with
        | some z => (acc.1 ++ [(kt.1, z)], acc.2)
        | none => (acc.1, false))
      (acc, b) =
      (acc ++ entries.filterMap
        (fun kt => (parseZType kt.2).map (fun z => (kt.1, z))),
       b && entries.all (fun kt => (parseZType kt.2).isSome)) := by
  induction entries generalizing acc b with
  | nil => simp
  | cons kt rest ih =>
    cases hz : parseZType kt.2 with
    | some z =>
      simp [List.foldl_cons, hz, ih, List.filterMap_cons, List.all_cons]
    | none =>
      simp [List.foldl_cons, hz, ih, List.filterMap_cons, List.all_cons]

/-- Claim C4 amended: one unrecognized field type drops the whole schema;
a schema is passed exactly when the entry list is nonempty and every
field type is recognized, and it then contains all the fields in order. -/
theorem buildExtractSchema_all_or_nothing (entries : List (String × String)) :
    buildExtractSchema entries =
      if entries ≠ [] ∧ ∀ kt ∈ entries, (parseZType kt.2).isSome = true then
        some (entries.filterMap
          (fun kt => (parseZType kt.2).map (fun z => (kt.1, z))))
      else none := by
  have hloop := extractSchemaLoop_go entries [] true
  rw [buildExtractSchema, extractSchemaLoop, hloop]
  simp only [List.nil_append, Bool.true_and]
  by_cases hall : entries.all (fun kt => (parseZType kt.2).isSome) = true
  · cases entries with
    | nil => simp
    | cons kt rest =>
      have hk : (parseZType kt.2).isSome = true :=
        List.all_eq_true.mp hall kt (List.mem_cons_self kt rest)
      obtain ⟨z, hz⟩ := Option.isSome_iff_exists.mp hk
      have hlen : 0 < ((kt :: rest).filterMap
          (fun kt => (parseZType kt.2).map (fun z => (kt.1, z)))).length := by
        rw [List.filterMap_cons, hz]
        simp
      have hcond : ((kt :: rest).all (fun kt => (parseZType kt.2).isSome) &&
          decide (0 < ((kt :: rest).filterMap
            (fun kt => (parseZType kt.2).map (fun z => (kt.1, z)))).length)) =
            true := by
        rw [hall, decide_eq_true hlen]
        rfl
      rw [if_pos hcond,
        if_pos ⟨List.cons_ne_nil kt rest, List.all_eq_true.mp hall⟩]
  · have hallf : entries.all (fun kt => (parseZType kt.2).isSome) = false := by
      simpa using hall
    have hcond : (entries.all (fun kt => (parseZType kt.2).isSome) &&
        decide (0 < (entries.filterMap
          (fun kt => (parseZType kt.2).map (fun z => (kt.1, z)))).length)) =
          false := by
      rw [hallf]
      rfl
    rw [if_neg (by simp [hcond]), if_neg ?hrhs]
    case hrhs =>
      rintro ⟨-, h2⟩
      exact hall (List.all_eq_true.mpr h2)

/-- The first-blocked-URL loop characterized on an arbitrary URL list. -/
lemma firstBlockedUrl_eq_some (l : List String) (d : String) :
    firstBlockedUrl l = some d ↔
      ∃ pre u post, l = pre ++ u :: post ∧ getBlockedDomain u = some d ∧
        ∀ u' ∈ pre, getBlockedDomain u' = none := by
  induction l with
  | nil =>
    simp only [firstBlockedUrl]
    constructor
    · intro h; cases h
    · rintro ⟨pre, u, post, heq, -, -⟩
      exact absurd heq.symm (List.append_ne_nil_of_right_ne_nil pre
        (List.cons_ne_nil u post))
  | cons u rest ih =>
    rw [firstBlockedUrl]
    cases hu : getBlockedDomain u with
    | some d' =>
      constructor
      · intro h
        injection h with h
        exact ⟨[], u, rest, rfl, by rw [hu, h], by intro u' h'; cases h'⟩
      · rintro ⟨pre, v, post, heq, hv, hpre⟩
        cases pre with
        | nil =>
          simp only [List.nil_append, List.cons.injEq] at heq
          obtain ⟨rfl, -⟩ := heq
          rw [hu] at hv
          exact hv
        | cons q qs =>
          simp only [List.cons_append, List.cons.injEq] at heq
          obtain ⟨rfl, -⟩ := heq
          have := hpre u (List.mem_cons_self u qs)
          rw [hu] at this
          cases this
    | none =>
      rw [ih]
      constructor
      · rintro ⟨pre, v, post, heq, hv, hpre⟩
        refine ⟨u :: pre, v, post, by rw [List.cons_append, heq], hv, ?_⟩
        intro u' h'
        rcases List.mem_cons.mp h' with rfl | h''
        · exact hu
        · exact hpre u' h''
      · rintro ⟨pre, v, post, heq, hv, hpre⟩
        cases pre with
        | nil =>
          simp only [List.nil_append, List.cons.injEq] at heq
          obtain ⟨rfl, rfl⟩ := heq
          rw [hu] at hv
          cases hv
        | cons q qs =>
          simp only [List.cons_append, List.cons.injEq] at heq
          obtain ⟨rfl, heq⟩ := heq
          exact ⟨qs, v, post, heq, hv,
            fun u' h' => hpre u' (List.mem_cons_of_mem _ h')⟩

/-- The first-blocked-URL loop returns none exactly when no URL of the
list is blocked. -/
lemma firstBlockedUrl_eq_none (l : List String) :
    firstBlockedUrl l = none ↔ ∀ u ∈ l, getBlockedDomain u = none := by
  induction l with
  | nil => simp [firstBlockedUrl]
  | cons u rest ih =>
    rw [firstBlockedUrl]
    cases hu : getBlockedDomain u with
    | some d' => simp [hu]
    | none => simp [hu, ih]

/-- Claim C8: the act gate reports a domain exactly when some URL matched
by its pattern inside the text is blocked; the reported domain is the one
getBlockedDomain returns for the first blocked matched URL (every earlier
matched URL being unblocked), and with no blocked matched URL it reports
none. -/
theorem actionReferences_characterization (action d : String) :
    (actionReferencesBlockedDomain action = some d ↔
      ∃ pre u post, extractUrls action = pre ++ u :: post ∧
        getBlockedDomain u = some d ∧
        ∀ u' ∈ pre, getBlockedDomain u' = none) ∧
    (actionReferencesBlockedDomain action = none ↔
      ∀ u ∈ extractUrls action, getBlockedDomain u = none) :=
  ⟨firstBlockedUrl_eq_some (extractUrls action) d,
   firstBlockedUrl_eq_none (extractUrls action)⟩

/-- Witness for C8: a URL smuggled into free text is detected and the
reported domain equals the isolated verdict for that URL. -/
theorem actionReferences_characterization_witness :
    actionReferencesBlockedDomain "go to https://chase.com and log in" =
      some "chase.com" :=
  (actionReferences_characterization "go to https://chase.com and log in"
      "chase.com").1.mpr
    ⟨[], "https://chase.com", [], by decide, by decide, by intro u' h'; cases h'⟩

/-- Search for the regexp scheme literal anywhere in the text. -/
def mentionsScheme : List Char → Bool
  | [] => false
  | c :: rest => (matchScheme (c :: rest)).isSome || mentionsScheme rest

/-- Without an occurrence of the scheme literal the global regexp search
finds nothing. -/
lemma extractUrlsAux_nil_of_no_scheme :
    ∀ (fuel : Nat) (cs : List Char), mentionsScheme cs = false →
      extractUrlsAux fuel cs = [] := by
  intro fuel
  induction fuel with
  | zero => intro cs _; rfl
  | succ f ih =>
    intro cs h
    cases cs with
    | nil => rfl
    | cons c rest =>
      rw [mentionsScheme, Bool.or_eq_false_iff] at h
      have hms : matchScheme (c :: rest) = none := by
        cases hm : matchScheme (c :: rest) with
        | none => rfl
        | some v => rw [hm] at h; simp at h
      rw [extractUrlsAux, tryMatchAt, hms]
      exact ih rest h.2

/-- Claim C10: the act gate only inspects substrings beginning with the
http or https scheme: an action text containing no occurrence of the
scheme literal yields no matched URL and is never blocked, whatever
domains it mentions. -/
theorem act_gate_needs_scheme (action : String)
    (h : mentionsScheme action.data = false) :
    actionReferencesBlockedDomain action = none ∧
    extractUrls action = [] := by
  have he : extractUrls action = [] := by
    rw [extractUrls, extractUrlsAux_nil_of_no_scheme _ _ h]
    rfl
  exact ⟨by rw [actionReferencesBlockedDomain, he]; rfl, he⟩

/-- Witness for C10: a blocked domain mentioned without a scheme does not
trigger the act gate. -/
theorem act_gate_needs_scheme_witness :
    mentionsScheme ("go to chase.com and log in").data = false ∧
    actionReferencesBlockedDomain "go to chase.com and log in" = none :=
  ⟨by decide,
   (act_gate_needs_scheme "go to chase.com and log in" (by decide)).1⟩

/-- A decimal digit character is not JavaScript whitespace. -/
lemma digit_not_ws {c : Char} (h : charIsDigit c = true) :
    jsWhitespace c = false := by
  simp only [charIsDigit, Bool.and_eq_true, decide_eq_true_eq] at h
  by_contra hws
  rw [Bool.not_eq_false] at hws
  simp only [jsWhitespace, Bool.or_eq_true, Bool.and_eq_true, beq_iff_eq,
    decide_eq_true_eq] at hws
  omega

lemma all_digits_dropWhile_ws {ds : List Char} (h : ds.all charIsDigit = true) :
    ds.dropWhile jsWhitespace = ds := by
  cases ds with
  | nil => rfl
  | cons c rest =>
    have hc : charIsDigit c = true :=
      List.all_eq_true.mp h c (List.mem_cons_self c rest)
    exact List.dropWhile_cons_of_neg (by simp [digit_not_ws hc])

/-- Trimming is the identity on all-digit strings. -/
lemma jsTrimList_of_digits {ds : List Char} (h : ds.all charIsDigit = true) :
    jsTrimList ds = ds := by
  have hrev : ds.reverse.all charIsDigit = true := by
    rw [List.all_eq_true] at h ⊢
    intro c hc
    exact h c (List.mem_reverse.mp hc)
  rw [jsTrimList, all_digits_dropWhile_ws h, all_digits_dropWhile_ws hrev,
    List.reverse_reverse]

lemma takeWhile_all {p : Char → Bool} :
    ∀ {l : List Char}, l.all p = true → l.takeWhile p = l := by
  intro l h
  induction l with
  | nil => rfl
  | cons c rest ih =>
    have hc : p c = true := List.all_eq_true.mp h c (List.mem_cons_self c rest)
    rw [List.takeWhile_cons_of_pos hc,
      ih (List.all_eq_true.mpr
        (fun x hx => List.all_eq_true.mp h x (List.mem_cons_of_mem c hx)))]

lemma decDigit_spec (d : Nat) (hd : d < 10) :
    charIsDigit (decDigit d) = true ∧ (decDigit d).toNat = 48 + d := by
  interval_cases d <;> exact ⟨by decide, by decide⟩

/-- The decimal printer emits a nonempty all-digit string whose value is
the printed number. -/
lemma natDecimalAux_spec :
    ∀ (fuel n : Nat), n < fuel →
      (natDecimalAux fuel n).all charIsDigit = true ∧
      natDecimalAux fuel n ≠ [] ∧
      digitsVal (natDecimalAux fuel n) = n := by
  intro fuel
  induction fuel with
  | zero => intro n h; omega
  | succ f ih =>
    intro n h
    rw [natDecimalAux]
    by_cases h10 : n < 10
    · rw [if_pos h10]
      obtain ⟨hd, ht⟩ := decDigit_spec n h10
      refine ⟨by simp [hd], by simp, ?_⟩
      simp only [digitsVal, List.foldl_cons, List.foldl_nil]
      omega
    · rw [if_neg h10]
      have hn10 : n / 10 < f := by
        have h1 : n / 10 < n := Nat.div_lt_self (by omega) (by omega)
        omega
      obtain ⟨ha, hne, hv⟩ := ih (n / 10) hn10
      have hmod : n % 10 < 10 := Nat.mod_lt _ (by omega)
      obtain ⟨hd, ht⟩ := decDigit_spec (n % 10) hmod
      refine ⟨?_, by simp, ?_⟩
      · rw [List.all_append]
        simp [ha, hd]
      · rw [digitsVal, List.foldl_append]
        simp only [List.foldl_cons, List.foldl_nil]
        rw [show List.foldl (fun acc c => 10 * acc + (c.toNat - 48)) 0
            (natDecimalAux f (n / 10)) =
          digitsVal (natDecimalAux f (n / 10)) from rfl, hv, ht]
        omega

/-- parseInt round-trips the decimal representation the port writer
persists. -/
lemma parseIntJS_natToDecimal (n : Nat) :
    parseIntJS (natToDecimal n) = some (n : Int) := by
  obtain ⟨hall, hne, hval⟩ := natDecimalAux_spec (n + 1) n (Nat.lt_succ_self n)
  have hdata : (natToDecimal n).data = natDecimalAux (n + 1) n := rfl
  rw [parseIntJS, hdata, jsTrimList_of_digits hall]
  cases hds : natDecimalAux (n + 1) n with
  | nil => exact absurd hds hne
  | cons c rest =>
    rw [hds] at hall hval
    have hc : charIsDigit c = true :=
      List.all_eq_true.mp hall c (List.mem_cons_self c rest)
    have hc' : 48 ≤ c.toNat ∧ c.toNat ≤ 57 := by
      simpa [charIsDigit, Bool.and_eq_true, decide_eq_true_eq] using hc
    rw [parseIntChars, if_neg (by omega), if_neg (by omega), digitsRun]
    simp only [takeWhile_all hall, List.isEmpty_cons, hval]
    rfl

lemma getCdpPort_eq_some (pf : String) (pid prof : Bool) (rand : Nat) :
    getCdpPort ⟨some pf, pid, prof⟩ rand =
      portFromContent ⟨some pf, pid, prof⟩ rand (parseIntJS pf) := rfl

lemma getCdpPort_eq_none (pid prof : Bool) (rand : Nat) :
    getCdpPort ⟨none, pid, prof⟩ rand = freshPort ⟨none, pid, prof⟩ rand := rfl

lemma portFromContent_some (fs : FSState) (rand : Nat) (saved : Int) :
    portFromContent fs rand (some saved) =
      if saved > 0 then (saved, fs) else freshPort fs rand := rfl

lemma portFromContent_none (fs : FSState) (rand : Nat) :
    portFromContent fs rand none = freshPort fs rand := rfl

lemma getCdpPort_after_fresh (fs : FSState) (r1 r2 : Nat) :
    getCdpPort (freshPort fs r1).2 r2 = freshPort fs r1 := by
  rcases fs with ⟨pf, pid, prof⟩
  have hpos : ((getRandomCdpPort r1 : Nat) : Int) > 0 := by
    rw [getRandomCdpPort]
    omega
  have h1 : (freshPort ⟨pf, pid, prof⟩ r1).2 =
      (⟨some (natToDecimal (getRandomCdpPort r1)), pid, prof⟩ : FSState) := rfl
  rw [h1, getCdpPort_eq_some, parseIntJS_natToDecimal, portFromContent_some,
    if_pos hpos]
  rfl

/-- Claim C9: resolving the CDP port twice without an intervening close
returns the same integer and leaves the same port file, whichever path
(file reuse or fresh generation) the first resolution took; once close
has removed the port file, a subsequent resolution can return a
different integer. -/
theorem getCdpPort_idempotent (fs : FSState) (r1 r2 : Nat) :
    getCdpPort (getCdpPort fs r1).2 r2 = getCdpPort fs r1 ∧
    ∃ (fs0 : FSState) (ra rb : Nat),
      (getCdpPort { (getCdpPort fs0 ra).2 with portFile := none } rb).1 ≠
        (getCdpPort fs0 ra).1 := by
  constructor
  · rcases fs with ⟨pf, pid, prof⟩
    cases pf with
    | none =>
      rw [getCdpPort_eq_none]
      exact getCdpPort_after_fresh _ r1 r2
    | some content =>
      rw [getCdpPort_eq_some]
      rcases hpi : parseIntJS content with _ | saved
      · rw [portFromContent_none]
        exact getCdpPort_after_fresh _ r1 r2
      · rw [portFromContent_some]
        by_cases hs : saved > 0
        · rw [if_pos hs,
            show ((saved, (⟨some content, pid, prof⟩ : FSState))).2 =
              (⟨some content, pid, prof⟩ : FSState) from rfl,
            getCdpPort_eq_some, hpi, portFromContent_some, if_pos hs]
        · rw [if_neg hs]
          exact getCdpPort_after_fresh _ r1 r2
  · exact ⟨⟨none, false, false⟩, 0, 1, by decide⟩

end AgentBrowse
